import Mathlib

/-!
Verification of the asset-property backend core (storage.js, imageHandler.js,
Downloads/Backend/propertyController.js) against its specification.

JavaScript objects are embedded as association lists of string keys and JSON
values; object spread (`{...a, ...b}`) is embedded as a left fold of key
overwrites, which reproduces JS semantics: a key already present keeps its
position and takes the later value, a new key is appended.  Machine effects
(the millisecond clock, `Math.random`, generated filenames, decoded byte
lengths) enter the functions as explicit parameters; the file system is
embedded as explicit state (the durable collection is a `List Obj` passed in
and returned, matching the code's read-whole-file / write-whole-file cycle,
with the durable write modelled as succeeding).
-/

/-- A JSON value, as stored in `properties.json` and passed through the API. -/
inductive JVal where
  | str : String → JVal
  | num : Int → JVal
  | boolV : Bool → JVal
  | nullV : JVal
  | arr : List JVal → JVal
  | obj : List (String × JVal) → JVal

/-- A JavaScript object: ordered key/value bindings. -/
abbrev Obj := List (String × JVal)

/-- Property access `o[k]`: the first binding of `k` (objects built by the
embedding never hold duplicate keys, see `spread`). -/
def objGet (o : Obj) (k : String) : Option JVal :=
  (o.find? (fun p => p.1 == k)).map (fun p => p.2)

/-- Assignment `o[k] = v` with JS object-spread semantics: an existing key
keeps its position and takes the new value, a fresh key is appended. -/
def objSet (o : Obj) (k : String) (v : JVal) : Obj :=
  if o.any (fun p => p.1 == k) then
    o.map (fun p => if p.1 == k then (k, v) else p)
  else
    o ++ [(k, v)]

/-- Object spread `{...a, ...b}`. -/
def spread (a b : Obj) : Obj :=
  b.foldl (fun acc kv => objSet acc kv.1 kv.2) a

/-- The keys of an object. -/
def objKeys (o : Obj) : List String := o.map (fun p => p.1)

theorem find?_replace_same (o : Obj) (k : String) (v : JVal)
    (h : o.any (fun p => p.1 == k) = true) :
    List.find? (fun p => p.1 == k)
      (o.map (fun p => if p.1 == k then (k, v) else p)) = some (k, v) := by
  induction o with
  | nil => simp at h
  | cons p ps ih =>
    rw [List.map_cons]
    by_cases hp : (p.1 == k) = true
    · rw [if_pos hp]
      exact List.find?_cons_of_pos _ (by simp)
    · rw [if_neg hp, List.find?_cons_of_neg (p := fun q : String × JVal => q.1 == k) _ hp]
      apply ih
      simpa [hp] using h

theorem find?_replace_other (o : Obj) (k k' : String) (v : JVal)
    (hk : ¬ ((k == k') = true)) :
    List.find? (fun p => p.1 == k')
        (o.map (fun p => if p.1 == k then (k, v) else p))
      = List.find? (fun p => p.1 == k') o := by
  induction o with
  | nil => rfl
  | cons p ps ih =>
    rw [List.map_cons]
    by_cases hp : (p.1 == k) = true
    · rw [if_pos hp, List.find?_cons_of_neg (p := fun q : String × JVal => q.1 == k') _ hk]
      have hp' : ¬ ((p.1 == k') = true) := by
        simp only [beq_iff_eq] at hp hk ⊢
        rw [hp]; exact hk
      rw [List.find?_cons_of_neg (p := fun q : String × JVal => q.1 == k') _ hp', ih]
    · rw [if_neg hp]
      by_cases hq : (p.1 == k') = true
      · rw [List.find?_cons_of_pos (p := fun q : String × JVal => q.1 == k') _ hq,
          List.find?_cons_of_pos (p := fun q : String × JVal => q.1 == k') _ hq]
      · rw [List.find?_cons_of_neg (p := fun q : String × JVal => q.1 == k') _ hq,
          List.find?_cons_of_neg (p := fun q : String × JVal => q.1 == k') _ hq, ih]

theorem find?_append_one (l : List (String × JVal)) (e : String × JVal)
    (pr : String × JVal → Bool) (he : ¬ (pr e = true)) :
    List.find? pr (l ++ [e]) = List.find? pr l := by
  induction l with
  | nil => simp [List.find?, he]
  | cons a as ih =>
    by_cases ha : pr a = true
    · rw [List.cons_append, List.find?_cons_of_pos _ ha, List.find?_cons_of_pos _ ha]
    · rw [List.cons_append, List.find?_cons_of_neg _ ha, List.find?_cons_of_neg _ ha, ih]

theorem objGet_objSet_same (o : Obj) (k : String) (v : JVal) :
    objGet (objSet o k v) k = some v := by
  unfold objGet objSet
  by_cases h : o.any (fun p => p.1 == k) = true
  · rw [if_pos h, find?_replace_same o k v h]
    rfl
  · rw [if_neg h]
    have hall : ∀ x ∈ o, ¬ ((x.1 == k) = true) := by
      intro x hx
      simp only [List.any_eq_true, not_exists, not_and] at h
      exact h x hx
    have : List.find? (fun p => p.1 == k) (o ++ [(k, v)]) = some (k, v) := by
      induction o with
      | nil => simp [List.find?]
      | cons a as ih =>
        rw [List.cons_append, List.find?_cons_of_neg (p := fun q : String × JVal => q.1 == k) _ (hall a (by simp))]
        exact ih (fun hc => h (by simp [List.any_cons, hc]))
          (fun x hx => hall x (by simp [hx]))
    rw [this]
    rfl

theorem objGet_objSet_other (o : Obj) (k k' : String) (v : JVal) (hk : k' ≠ k) :
    objGet (objSet o k v) k' = objGet o k' := by
  have hkk : ¬ ((k == k') = true) := by
    simp only [beq_iff_eq]
    exact fun hh => hk hh.symm
  unfold objGet objSet
  by_cases h : o.any (fun p => p.1 == k) = true
  · rw [if_pos h, find?_replace_other o k k' v hkk]
  · rw [if_neg h, find?_append_one o (k, v) _ (by simpa using hkk)]

theorem spread_cons (a : Obj) (p : String × JVal) (ps : Obj) :
    spread a (p :: ps) = spread (objSet a p.1 p.2) ps := rfl

theorem objGet_spread_of_not_mem (a b : Obj) (k : String)
    (hk : k ∉ objKeys b) : objGet (spread a b) k = objGet a k := by
  induction b generalizing a with
  | nil => rfl
  | cons p ps ih =>
    simp only [objKeys, List.map_cons, List.mem_cons, not_or] at hk
    rw [spread_cons, ih _ (by simpa [objKeys] using hk.2)]
    exact objGet_objSet_other a p.1 k p.2 hk.1

theorem objGet_spread_of_mem_nodup (a b : Obj) (k : String) (v : JVal)
    (hnd : (objKeys b).Nodup) (hv : (k, v) ∈ b) :
    objGet (spread a b) k = some v := by
  induction b generalizing a with
  | nil => simp at hv
  | cons p ps ih =>
    simp only [objKeys, List.map_cons, List.nodup_cons] at hnd
    rw [spread_cons]
    rcases List.mem_cons.mp hv with h | h
    · subst h
      rw [objGet_spread_of_not_mem (objSet a (k, v).1 (k, v).2) ps k
        (by simpa [objKeys] using hnd.1)]
      exact objGet_objSet_same a k v
    · exact ih (objSet a p.1 p.2) hnd.2 h

/- ===================== imageHandler.js : validateImageData ============== -/

/-- One submitted image payload.  `none` for an absent field; JS truthiness
makes the empty string behave like an absent field, which the definitions
below reproduce. -/
structure ImageData where
  name : Option String
  type : Option String
  data : Option String
  size : Option Int

/-- JS truthiness of an optional string field (`undefined`, `null` and `""`
are falsy). -/
def truthyStr : Option String → Bool
  | none => false
  | some s => s ≠ ""

/-- JS truthiness of an optional numeric field (`undefined` and `0` falsy). -/
def truthyNum : Option Int → Bool
  | none => false
  | some n => n ≠ 0

/-- The allowed MIME types (imageHandler.js line 46). -/
def allowedTypes : List String := ["image/jpeg", "image/jpg", "image/png", "image/webp"]

/-- `^data:image\/(jpeg|jpg|png|webp);base64,` — anchored at the start, so
the test is a prefix test (carried out on the character lists so that it
computes by `decide`). -/
def base64PrefixOk (s : String) : Bool :=
  ["data:image/jpeg;base64,", "data:image/jpg;base64,",
   "data:image/png;base64,", "data:image/webp;base64,"].any
    (fun p => p.data.isPrefixOf s.data)

/-- Result of `validateImageData`. -/
structure ValidationResult where
  isValid : Bool
  errors : List String

/-- imageHandler.js `validateImageData` (lines 38–69), error pushes in
source order. -/
def validateImageData (img : ImageData) : ValidationResult :=
  let errors : List String := []
  let errors := if !truthyStr img.name then errors ++ ["Image name is required"] else errors
  let errors :=
    if !truthyStr img.type then errors ++ ["Image type is required"]
    else if !(allowedTypes.contains (img.type.getD "")) then
      errors ++ ["Invalid image type. Only JPEG, PNG, and WebP are allowed"]
    else errors
  let errors :=
    if !truthyStr img.data then errors ++ ["Image data is required"]
    else if !base64PrefixOk (img.data.getD "") then
      errors ++ ["Invalid base64 image data format"]
    else errors
  let errors :=
    if truthyNum img.size && decide ((img.size.getD 0) > 10 * 1024 * 1024) then
      errors ++ ["Image size cannot exceed 10MB"]
    else errors
  { isValid := errors.isEmpty, errors := errors }

/- ===================== imageHandler.js : processImage(s) =============== -/

/-- Result of `processImage`.  The file-system side effects (directory
creation, writing the decoded bytes) are not observable through the claims;
the generated filename and the decoded byte length enter as parameters
(`fname`, `blen`) standing for `generateUniqueFilename` and
`Buffer.from(...).length`.  Decode/write exceptions (the `catch` branch of
the source) are not modelled, so a failure carries exactly the validation
errors. -/
inductive ProcResult where
  | ok (filename : String) (filepath : String) (size : Nat) (originalName : Option String)
  | fail (errors : List String)

/-- imageHandler.js `processImage` (lines 76–120): validate, then (on
success) write the decoded payload under a generated unique filename in
`uploadDir`. -/
def processImage (img : ImageData) (fname : String) (blen : Nat)
    (uploadDir : String) : ProcResult :=
  let validation := validateImageData img
  if !validation.isValid then
    .fail validation.errors
  else
    .ok fname (uploadDir ++ "/" ++ fname) blen img.name

/-- One entry of `processedImages` (index, filename, filepath, size,
originalName). -/
structure ProcessedEntry where
  index : Nat
  filename : String
  filepath : String
  size : Nat
  originalName : Option String

/-- One entry of the batch `errors` list (index, originalName, errors). -/
structure ErrorEntry where
  index : Nat
  originalName : Option String
  errors : List String

/-- Batch result of `processImages`. -/
structure BatchResult where
  success : Bool
  processedImages : List ProcessedEntry
  errors : List ErrorEntry

/-- The loop body of `processImages` (lines 141–159): items are taken in
order, indexed from `i`; `fname i` / `blen i` stand for the filename and
decoded byte length produced for item `i`. -/
def processImagesLoop : List ImageData → Nat → (Nat → String) → (Nat → Nat) →
    String → (List ProcessedEntry × List ErrorEntry)
  | [], _, _, _, _ => ([], [])
  | img :: rest, i, fname, blen, uploadDir =>
    let (rs, es) := processImagesLoop rest (i + 1) fname blen uploadDir
    match processImage img (fname i) (blen i) uploadDir with
    | .ok fn fp sz oname => (⟨i, fn, fp, sz, oname⟩ :: rs, es)
    | .fail errs => (rs, ⟨i, img.name, errs⟩ :: es)

/-- imageHandler.js `processImages` (lines 126–164). An empty batch (or a
non-array, which the list type rules out) short-circuits to success with
empty outputs; otherwise the loop runs over every item and `success` is
`errors.length === 0`. -/
def processImages (images : List ImageData) (fname : Nat → String)
    (blen : Nat → Nat) (uploadDir : String) : BatchResult :=
  match images with
  | [] => ⟨true, [], []⟩
  | _ :: _ =>
    let (rs, es) := processImagesLoop images 0 fname blen uploadDir
    ⟨es.isEmpty, rs, es⟩

/- ===================== storage.js : the record store ==================== -/

/-- `prop.id === id` — true only when the record's `id` field is the given
string. -/
def idMatches (p : Obj) (id : String) : Bool :=
  match objGet p "id" with
  | some (.str s) => s == id
  | _ => false

/-- storage.js `saveProperty` (lines 57–75): build
`{id, ...propertyData, createdAt, updatedAt}` and append it.  The generated
id (`PROP_${Date.now()}_${random}`) and the ISO timestamp enter as the
parameters `pid` and `now`; the durable write is modelled as succeeding, so
the function returns the new collection and the new record. -/
def saveProperty (props : List Obj) (propertyData : Obj) (pid now : String) :
    List Obj × Obj :=
  let newProperty :=
    spread (spread [("id", JVal.str pid)] propertyData)
      [("createdAt", JVal.str now), ("updatedAt", JVal.str now)]
  (props ++ [newProperty], newProperty)

/-- storage.js `getPropertyById` (lines 90–93). -/
def getPropertyById (props : List Obj) (id : String) : Option Obj :=
  props.find? (fun p => idMatches p id)

/-- The merged record an update produces:
`{...existing, ...updateData, updatedAt: now}`. -/
def mergedRecord (p : Obj) (updateData : Obj) (now : String) : Obj :=
  spread (spread p updateData) [("updatedAt", JVal.str now)]

/-- storage.js `updateProperty` (lines 101–120): find the first record with
the id (`findIndex`), return `none` (null) when absent, otherwise replace it
in place with the shallow merge and return the new collection and the
updated record. -/
def updateProperty : List Obj → String → Obj → String → Option (List Obj × Obj)
  | [], _, _, _ => none
  | p :: ps, id, updateData, now =>
    if idMatches p id then
      let p' := mergedRecord p updateData now
      some (p' :: ps, p')
    else
      match updateProperty ps id updateData now with
      | none => none
      | some (ps', r) => some (p :: ps', r)

/-- storage.js `deleteProperty` (lines 127–136): filter the id out; if
nothing was removed return `false` (and nothing is written), else write the
reduced collection and return `true`.  Returns the flag and the resulting
durable collection. -/
def deleteProperty (props : List Obj) (id : String) : Bool × List Obj :=
  let filteredProperties := props.filter (fun p => !(idMatches p id))
  if filteredProperties.length == props.length then
    (false, props)
  else
    (true, filteredProperties)

/-- The search filters; `none` stands for an absent query field. -/
structure Filters where
  propertyType : Option String
  location : Option String
  minPrice : Option Int
  maxPrice : Option Int
  beds : Option Int
  baths : Option Int

/-- The empty filter object `{}`. -/
def noFilters : Filters := ⟨none, none, none, none, none, none⟩

/-- Record string field read `prop.f.toLowerCase()...`; records produced by
the API carry these fields as strings (a record without the field would make
the JS throw, which is outside the evaluator's contract). -/
def strField (p : Obj) (k : String) : String :=
  match objGet p k with
  | some (.str s) => s
  | _ => ""

/-- Substring test on character lists (computable by `decide`); an empty
needle is contained in everything, as with JS `includes`. -/
def containsSub : List Char → List Char → Bool
  | hay, needle =>
    match hay with
    | [] => needle.isEmpty
    | _ :: rest => needle.isPrefixOf hay || containsSub rest needle

/-- Case-insensitive JS `a.toLowerCase().includes(b.toLowerCase())` (ASCII
per-character lowering). -/
def strIncludesCI (hay needle : String) : Bool :=
  containsSub (hay.data.map Char.toLower) (needle.data.map Char.toLower)

/-- Numeric record field comparison `prop.k ⋈ bound`: false when the field
is absent or not numeric (JS `undefined ⋈ n` is false). -/
def numFieldGE (p : Obj) (k : String) (bound : Int) : Bool :=
  match objGet p k with
  | some (.num n) => decide (n ≥ bound)
  | _ => false

def numFieldLE (p : Obj) (k : String) (bound : Int) : Bool :=
  match objGet p k with
  | some (.num n) => decide (n ≤ bound)
  | _ => false

/-- storage.js `searchProperties` (lines 143–176): each `if (filters.x)`
guard is JS truthiness, so an absent, empty-string or zero criterion applies
no filter; the filters that do apply are chained in source order. -/
def searchProperties (props : List Obj) (f : Filters) : List Obj :=
  let ps := props
  let ps := if truthyStr f.propertyType then
      ps.filter (fun p => strIncludesCI (strField p "propertyType") (f.propertyType.getD ""))
    else ps
  let ps := if truthyStr f.location then
      ps.filter (fun p => strIncludesCI (strField p "location") (f.location.getD ""))
    else ps
  let ps := if truthyNum f.minPrice then
      ps.filter (fun p => numFieldGE p "price" (f.minPrice.getD 0))
    else ps
  let ps := if truthyNum f.maxPrice then
      ps.filter (fun p => numFieldLE p "price" (f.maxPrice.getD 0))
    else ps
  let ps := if truthyNum f.beds then
      ps.filter (fun p => numFieldGE p "beds" (f.beds.getD 0))
    else ps
  let ps := if truthyNum f.baths then
      ps.filter (fun p => numFieldGE p "baths" (f.baths.getD 0))
    else ps
  ps

/-- The durable `properties.json` as the loader sees it: absent (first run),
or present and parsing to a collection, or present but unparseable. -/
inductive FileState where
  | absent
  | present (parsed : Option (List Obj))

/-- storage.js `readProperties` (lines 22–34): absent file ⇒ `[]`; parse
failure is caught, logged (`console.error`, the returned flag) and `[]` is
returned — the function never throws.  Result: the collection handed to the
caller, paired with whether an error was reported. -/
def readProperties : FileState → List Obj × Bool
  | .absent => ([], false)
  | .present (some l) => (l, false)
  | .present none => ([], true)

/- ============== propertyController.js : addProperty ===================== -/

/-- The controller's reply, restricted to what the claims observe: a 201
with the new record's id, or a 400 carrying the batch's error entries. -/
inductive AddPropertyResponse where
  | created (propertyId : String)
  | badRequest (errors : List ErrorEntry)

/-- propertyController.js `addProperty` (lines 11–85), with the request's
validated fields split into the non-image attributes `propertyData` and the
image payloads `images`.  If any image fails, reply 400 with the batch
errors and perform no store call; otherwise save
`{...propertyData, images: <metadata of the processed images>}`.  Returns
the resulting durable collection and the reply. -/
def addProperty (props : List Obj) (propertyData : Obj) (images : List ImageData)
    (fname : Nat → String) (blen : Nat → Nat) (pid now : String) :
    List Obj × AddPropertyResponse :=
  match images with
  | [] =>
    let (props', saved) := saveProperty props (spread propertyData [("images", JVal.arr [])]) pid now
    (props', .created (strField saved "id"))
  | _ :: _ =>
    let imageResult := processImages images fname blen "uploads/images"
    if !imageResult.success then
      (props, .badRequest imageResult.errors)
    else
      let meta := imageResult.processedImages.map (fun img =>
        JVal.obj [("filename", JVal.str img.filename),
                  ("originalName", match img.originalName with
                                   | some s => JVal.str s
                                   | none => JVal.nullV),
                  ("size", JVal.num (Int.ofNat img.size)),
                  ("filepath", JVal.str img.filepath)])
      let (props', saved) := saveProperty props (spread propertyData [("images", JVal.arr meta)]) pid now
      (props', .created (strField saved "id"))

/- ============== batch coordinator characterization ====================== -/

/-- The `processedImages` entry the loop produces for item `ji`, when its
payload validates. -/
def okEntry (fname : Nat → String) (blen : Nat → Nat) (uploadDir : String)
    (ji : Nat × ImageData) : Option ProcessedEntry :=
  if (validateImageData ji.2).isValid then
    some ⟨ji.1, fname ji.1, uploadDir ++ "/" ++ fname ji.1, blen ji.1, ji.2.name⟩
  else none

/-- The `errors` entry the loop produces for item `ji`, when its payload
fails validation. -/
def errEntry (ji : Nat × ImageData) : Option ErrorEntry :=
  if (validateImageData ji.2).isValid then none
  else some ⟨ji.1, ji.2.name, (validateImageData ji.2).errors⟩

theorem processImagesLoop_spec (l : List ImageData) (i : Nat)
    (fname : Nat → String) (blen : Nat → Nat) (uploadDir : String) :
    processImagesLoop l i fname blen uploadDir =
      ((l.enumFrom i).filterMap (okEntry fname blen uploadDir),
       (l.enumFrom i).filterMap errEntry) := by
  induction l generalizing i with
  | nil => rfl
  | cons img rest ih =>
    simp only [processImagesLoop, ih (i + 1), List.enumFrom_cons, List.filterMap_cons]
    by_cases h : (validateImageData img).isValid = true
    · simp [processImage, okEntry, errEntry, h]
    · simp only [Bool.not_eq_true] at h
      simp [processImage, okEntry, errEntry, h]

theorem processImages_spec (images : List ImageData) (fname : Nat → String)
    (blen : Nat → Nat) (uploadDir : String) :
    processImages images fname blen uploadDir =
      ⟨(images.enum.filterMap errEntry).isEmpty,
       images.enum.filterMap (okEntry fname blen uploadDir),
       images.enum.filterMap errEntry⟩ := by
  match images with
  | [] => rfl
  | img :: rest =>
    simp only [processImages, processImagesLoop_spec, List.enum_eq_enumFrom]

theorem mem_of_mem_enumFrom {α : Type} {x : Nat × α} {l : List α} {n : Nat}
    (h : x ∈ l.enumFrom n) : x.2 ∈ l := by
  induction l generalizing n with
  | nil => simp [List.enumFrom] at h
  | cons a as ih =>
    rw [List.enumFrom_cons] at h
    rcases List.mem_cons.mp h with h | h
    · subst h; simp
    · exact List.mem_cons_of_mem _ (ih h)

theorem exists_mem_enumFrom_of_mem {α : Type} {x : α} {l : List α}
    (h : x ∈ l) (n : Nat) : ∃ i, (i, x) ∈ l.enumFrom n := by
  induction l generalizing n with
  | nil => simp at h
  | cons a as ih =>
    rcases List.mem_cons.mp h with h | h
    · exact ⟨n, by simp [h]⟩
    · obtain ⟨i, hi⟩ := ih h (n + 1)
      exact ⟨i, by simp [hi]⟩

/-- C2: the batch coordinator processes the items sequentially in input
order; `success` is true iff every item ingested without error; every
processed and every failed entry carries the item's original index (the
output lists are exactly the order-preserving index-tagged selections of
the valid resp. invalid items, so every item is attempted even after a
failure); and an empty input yields `success = true` with empty outputs. -/
theorem claim_C2_batch_coordinator (images : List ImageData)
    (fname : Nat → String) (blen : Nat → Nat) (uploadDir : String) :
    ((processImages images fname blen uploadDir).success = true
      ↔ ∀ img ∈ images, (validateImageData img).isValid = true)
    ∧ (processImages images fname blen uploadDir).processedImages
        = images.enum.filterMap (okEntry fname blen uploadDir)
    ∧ (processImages images fname blen uploadDir).errors
        = images.enum.filterMap errEntry
    ∧ processImages [] fname blen uploadDir = ⟨true, [], []⟩ := by
  rw [processImages_spec]
  refine ⟨?_, rfl, rfl, rfl⟩
  rw [List.isEmpty_eq_true, List.filterMap_eq_nil_iff]
  constructor
  · intro h img hmem
    obtain ⟨i, hi⟩ := exists_mem_enumFrom_of_mem hmem 0
    have := h (i, img) (by rwa [List.enum_eq_enumFrom])
    by_contra hv
    simp only [Bool.not_eq_true] at hv
    simp [errEntry, hv] at this
  · intro h ji hmem
    have hva := h ji.2 (mem_of_mem_enumFrom (by rwa [List.enum_eq_enumFrom] at hmem))
    simp [errEntry, hva]

/-- Witness for C2 at a concrete two-item batch (one valid, one invalid
image). -/
def imgValid : ImageData :=
  ⟨some "a.png", some "image/png", some "data:image/png;base64,AAAA", some 1000⟩

def imgNoName : ImageData :=
  ⟨none, some "image/png", some "data:image/png;base64,AAAA", none⟩

def fnameW : Nat → String := fun i => "f" ++ toString i
def blenW : Nat → Nat := fun _ => 3

theorem claim_C2_batch_coordinator_witness :
    (processImages [imgValid, imgNoName] fnameW blenW "uploads/images").success = false
    ∧ (processImages [imgValid, imgNoName] fnameW blenW "uploads/images").errors
        = [⟨1, none, ["Image name is required"]⟩] := by
  have h := claim_C2_batch_coordinator [imgValid, imgNoName] fnameW blenW "uploads/images"
  constructor
  · have hne : ¬ ∀ img ∈ [imgValid, imgNoName], (validateImageData img).isValid = true := by
      intro hall
      exact absurd (hall imgNoName (by simp)) (by decide)
    rcases hb : (processImages [imgValid, imgNoName] fnameW blenW "uploads/images").success with _ | _
    · rfl
    · exact absurd (h.1.mp hb) hne
  · rw [h.2.2.1]
    rfl

/- ===================== C5 : validation characterization ================= -/

theorem size_ok_iff (sz : Option Int) :
    ((truthyNum sz && decide ((sz.getD 0) > 10 * 1024 * 1024)) = false
      ↔ (∀ s, sz = some s → s ≤ 10 * 1024 * 1024)) := by
  cases sz with
  | none => simp [truthyNum]
  | some s =>
    simp only [truthyNum, Option.getD_some, Bool.and_eq_false_iff,
      decide_eq_false_iff_not, not_lt, Option.some.injEq]
    constructor
    · rintro (h | h) s' hs'
      · subst hs'
        simp only [decide_eq_false_iff_not, Decidable.not_not] at h
        omega
      · subst hs'
        omega
    · intro h
      right
      exact h s rfl

theorem validateImageData_isValid_eq (img : ImageData) :
    (validateImageData img).isValid
      = (truthyStr img.name
          && (truthyStr img.type && allowedTypes.contains (img.type.getD ""))
          && (truthyStr img.data && base64PrefixOk (img.data.getD ""))
          && !(truthyNum img.size && decide ((img.size.getD 0) > 10 * 1024 * 1024))) := by
  simp only [validateImageData]
  cases hc1 : truthyStr img.name <;>
  cases hc2 : truthyStr img.type <;>
  cases hc3 : allowedTypes.contains (img.type.getD "") <;>
  cases hc4 : truthyStr img.data <;>
  cases hc5 : base64PrefixOk (img.data.getD "") <;>
  cases hc6 : truthyNum img.size <;>
  cases hc7 : decide ((img.size.getD 0) > 10 * 1024 * 1024) <;>
    simp [hc1, hc2, hc3, hc4, hc5, hc6, hc7]

/-- C5: an image payload validates iff its declared name is present
(non-empty), its declared MIME type is present and allowed, its payload data
is present and carries an allowed `data:image/...;base64,` prefix, and any
declared size does not exceed 10 MiB (10*1024*1024); and the result carries
at least one error message exactly when validation fails. -/
theorem claim_C5_image_validation (img : ImageData) :
    ((validateImageData img).isValid = true ↔
      (truthyStr img.name = true
        ∧ truthyStr img.type = true
        ∧ allowedTypes.contains (img.type.getD "") = true
        ∧ truthyStr img.data = true
        ∧ base64PrefixOk (img.data.getD "") = true
        ∧ (∀ s, img.size = some s → s ≤ 10 * 1024 * 1024)))
    ∧ ((validateImageData img).errors = [] ↔ (validateImageData img).isValid = true) := by
  constructor
  · rw [validateImageData_isValid_eq]
    rw [show (!(truthyNum img.size && decide ((img.size.getD 0) > 10 * 1024 * 1024)))
          = ((truthyNum img.size && decide ((img.size.getD 0) > 10 * 1024 * 1024)) == false)
        from by cases truthyNum img.size && decide ((img.size.getD 0) > 10 * 1024 * 1024) <;> rfl]
    simp only [Bool.and_eq_true, beq_iff_eq]
    rw [size_ok_iff img.size]
    tauto
  · have hiv : (validateImageData img).isValid = (validateImageData img).errors.isEmpty := rfl
    rw [hiv, List.isEmpty_eq_true]

/- ===================== C1 : all-or-nothing create ======================= -/

/-- C1: when any image of the submitted batch fails validation, `addProperty`
persists nothing (the durable collection is returned unchanged) and replies
with the batch failure whose entries are exactly the failing images, each
tagged with its index in the submitted order and its validation errors. -/
theorem claim_C1_create_rejects_failing_batch
    (props : List Obj) (propertyData : Obj) (images : List ImageData)
    (fname : Nat → String) (blen : Nat → Nat) (pid now : String)
    (hbad : ∃ img ∈ images, (validateImageData img).isValid = false) :
    (addProperty props propertyData images fname blen pid now).1 = props
    ∧ (addProperty props propertyData images fname blen pid now).2
        = AddPropertyResponse.badRequest (images.enum.filterMap errEntry) := by
  obtain ⟨img, hmem, hinv⟩ := hbad
  have hne : images.enum.filterMap errEntry ≠ [] := by
    obtain ⟨i, hi⟩ := exists_mem_enumFrom_of_mem hmem 0
    have he : errEntry (i, img) = some ⟨i, img.name, (validateImageData img).errors⟩ := by
      simp [errEntry, hinv]
    exact List.ne_nil_of_mem
      (List.mem_filterMap.mpr ⟨(i, img), by rwa [List.enum_eq_enumFrom], he⟩)
  have hie : (images.enum.filterMap errEntry).isEmpty = false := by
    rw [List.isEmpty_eq_false]
    exact hne
  cases images with
  | nil => simp at hmem
  | cons a rest =>
    have key : addProperty props propertyData (a :: rest) fname blen pid now
        = (props, AddPropertyResponse.badRequest ((a :: rest).enum.filterMap errEntry)) := by
      simp [addProperty, processImages_spec, hie]
    rw [key]
    exact ⟨rfl, rfl⟩

def pdW : Obj := [("title", JVal.str "Nice flat")]

theorem claim_C1_create_rejects_failing_batch_witness :
    (addProperty [] pdW [imgNoName] fnameW blenW "PROP_1" "T0").1 = []
    ∧ (addProperty [] pdW [imgNoName] fnameW blenW "PROP_1" "T0").2
        = AddPropertyResponse.badRequest [⟨0, none, ["Image name is required"]⟩] := by
  have h := claim_C1_create_rejects_failing_batch [] pdW [imgNoName] fnameW blenW "PROP_1" "T0"
    ⟨imgNoName, by simp, by decide⟩
  refine ⟨h.1, ?_⟩
  rw [h.2]
  rfl

/- ===================== C4 / C10 : search evaluator ====================== -/

/-- The conjunction of the criteria `searchProperties` actually applies: a
criterion participates only when its query field is truthy (present and
non-empty / non-zero).  Written in the exact nesting the sequential filters
compose to. -/
def matchesAll (f : Filters) (p : Obj) : Bool :=
  (if truthyNum f.baths then numFieldGE p "baths" (f.baths.getD 0) else true)
  && ((if truthyNum f.beds then numFieldGE p "beds" (f.beds.getD 0) else true)
  && ((if truthyNum f.maxPrice then numFieldLE p "price" (f.maxPrice.getD 0) else true)
  && ((if truthyNum f.minPrice then numFieldGE p "price" (f.minPrice.getD 0) else true)
  && ((if truthyStr f.location then
        strIncludesCI (strField p "location") (f.location.getD "") else true)
  && (if truthyStr f.propertyType then
        strIncludesCI (strField p "propertyType") (f.propertyType.getD "") else true)))))

/-- C4 (amended): the evaluator returns exactly the records satisfying the
conjunction of the criteria it treats as supplied — a criterion whose query
value is absent, the empty string, or zero imposes no constraint — keeping
the collection's original order; with no criteria it returns the collection
unchanged. -/
theorem claim_C4_search_conjunction (props : List Obj) (f : Filters) :
    searchProperties props f = props.filter (matchesAll f)
    ∧ searchProperties props noFilters = props := by
  constructor
  · by_cases h1 : truthyStr f.propertyType = true <;>
    by_cases h2 : truthyStr f.location = true <;>
    by_cases h3 : truthyNum f.minPrice = true <;>
    by_cases h4 : truthyNum f.maxPrice = true <;>
    by_cases h5 : truthyNum f.beds = true <;>
    by_cases h6 : truthyNum f.baths = true <;>
      simp [searchProperties, h1, h2, h3, h4, h5, h6, List.filter_filter] <;>
      first
        | (symm
           apply List.filter_eq_self.mpr
           intro a ha
           simp [matchesAll, h1, h2, h3, h4, h5, h6])
        | (apply List.filter_congr
           intro a ha
           simp [matchesAll, h1, h2, h3, h4, h5, h6])
  · rfl

/-- The claim's literal reading of §4.4 (and C4): every *supplied* criterion
constrains — `category`/`location` as case-insensitive substring matches,
`minPrice`/`maxPrice` as inclusive bounds, bed/bath minima — with no
truthiness exemption for zero.  Used to compare the spec's words with the
code's behavior. -/
def specSearchMatches (f : Filters) (p : Obj) : Bool :=
  (match f.propertyType with
   | none => true
   | some t => strIncludesCI (strField p "propertyType") t)
  && (match f.location with
      | none => true
      | some t => strIncludesCI (strField p "location") t)
  && (match f.minPrice with
      | none => true
      | some v => numFieldGE p "price" v)
  && (match f.maxPrice with
      | none => true
      | some v => numFieldLE p "price" v)
  && (match f.beds with
      | none => true
      | some v => numFieldGE p "beds" v)
  && (match f.baths with
      | none => true
      | some v => numFieldGE p "baths" v)

/-- A record with price 100, and a filter set supplying `maxPrice = 0`. -/
def ceProp : Obj :=
  [("id", JVal.str "P1"), ("propertyType", JVal.str "Flat"),
   ("location", JVal.str "Hyderabad"), ("price", JVal.num 100),
   ("beds", JVal.num 2), ("baths", JVal.num 1)]

def ceMaxZero : Filters := ⟨none, none, none, some 0, none, none⟩

/-- C4 as stated is false: with `maxPrice = 0` supplied, the evaluator does
not return "exactly the records matching all supplied criteria" — the
record with price 100 fails the supplied bound yet is returned (the code
treats a zero criterion as absent). -/
theorem claim_C4_counterexample :
    searchProperties [ceProp] ceMaxZero ≠ [ceProp].filter (specSearchMatches ceMaxZero) := by
  intro h
  have h1 : searchProperties [ceProp] ceMaxZero = [ceProp] := rfl
  have h2 : [ceProp].filter (specSearchMatches ceMaxZero) = [] := rfl
  rw [h1, h2] at h
  exact List.cons_ne_nil _ _ h

/-- C10: a zero-valued numeric criterion (minPrice, maxPrice, beds, baths)
is JS-falsy, so the evaluator returns exactly what it returns when that
criterion is omitted; in particular `maxPrice = 0` does not restrict the
result to records with price ≤ 0. -/
theorem claim_C10_zero_criterion_no_constraint (props : List Obj) (f : Filters) :
    searchProperties props ⟨f.propertyType, f.location, some 0, f.maxPrice, f.beds, f.baths⟩
      = searchProperties props ⟨f.propertyType, f.location, none, f.maxPrice, f.beds, f.baths⟩
    ∧ searchProperties props ⟨f.propertyType, f.location, f.minPrice, some 0, f.beds, f.baths⟩
      = searchProperties props ⟨f.propertyType, f.location, f.minPrice, none, f.beds, f.baths⟩
    ∧ searchProperties props ⟨f.propertyType, f.location, f.minPrice, f.maxPrice, some 0, f.baths⟩
      = searchProperties props ⟨f.propertyType, f.location, f.minPrice, f.maxPrice, none, f.baths⟩
    ∧ searchProperties props ⟨f.propertyType, f.location, f.minPrice, f.maxPrice, f.beds, some 0⟩
      = searchProperties props ⟨f.propertyType, f.location, f.minPrice, f.maxPrice, f.beds, none⟩ := by
  exact ⟨rfl, rfl, rfl, rfl⟩

/- ===================== storage.js : update lemmas ======================= -/

/-- Lexicographic order on character lists (how ISO-8601 timestamp strings
compare chronologically). -/
def charListLt : List Char → List Char → Bool
  | _, [] => false
  | [], _ :: _ => true
  | a :: as, b :: bs => if a < b then true else if b < a then false else charListLt as bs

/-- Strict lexicographic order on strings. -/
def strLt (a b : String) : Bool := charListLt a.data b.data

theorem updateProperty_cons_pos {p : Obj} {ps : List Obj} {id : String}
    {u : Obj} {now : String} (hp : idMatches p id = true) :
    updateProperty (p :: ps) id u now
      = some (mergedRecord p u now :: ps, mergedRecord p u now) := by
  simp [updateProperty, hp]

theorem updateProperty_cons_neg {p : Obj} {ps : List Obj} {id : String}
    {u : Obj} {now : String} (hp : idMatches p id = false) :
    updateProperty (p :: ps) id u now
      = match updateProperty ps id u now with
        | none => none
        | some (ps', r) => some (p :: ps', r) := by
  simp [updateProperty, hp]

theorem updateProperty_none_iff (props : List Obj) (id : String) (u : Obj)
    (now : String) :
    (updateProperty props id u now = none ↔ getPropertyById props id = none) := by
  induction props with
  | nil => simp [updateProperty, getPropertyById]
  | cons p ps ih =>
    by_cases hp : idMatches p id = true
    · rw [updateProperty_cons_pos hp]
      unfold getPropertyById
      rw [List.find?_cons_of_pos (p := fun q : Obj => idMatches q id) _ hp]
      simp
    · have hp' : idMatches p id = false := by simpa using hp
      rw [updateProperty_cons_neg hp']
      unfold getPropertyById
      rw [List.find?_cons_of_neg (p := fun q : Obj => idMatches q id) _ (by simp [hp'])]
      cases hrec : updateProperty ps id u now with
      | none =>
        have h2 : getPropertyById ps id = none := ih.mp hrec
        unfold getPropertyById at h2
        simp [h2]
      | some pr =>
        obtain ⟨ps', r⟩ := pr
        have h2 : getPropertyById ps id ≠ none := fun hn => by
          rw [ih.mpr hn] at hrec
          cases hrec
        unfold getPropertyById at h2
        constructor
        · intro h
          exact Option.noConfusion h
        · intro h
          exact absurd h h2

theorem updateProperty_found (props : List Obj) (id : String) (u : Obj)
    (now : String) (p : Obj) (hfind : getPropertyById props id = some p) :
    ∃ pre post, props = pre ++ p :: post
      ∧ (∀ q ∈ pre, idMatches q id = false)
      ∧ updateProperty props id u now
          = some (pre ++ mergedRecord p u now :: post, mergedRecord p u now) := by
  induction props with
  | nil => simp [getPropertyById] at hfind
  | cons q qs ih =>
    by_cases hq : idMatches q id = true
    · have hpq : p = q := by
        unfold getPropertyById at hfind
        rw [List.find?_cons_of_pos (p := fun x : Obj => idMatches x id) _ hq] at hfind
        exact (Option.some_inj.mp hfind).symm
      subst hpq
      exact ⟨[], qs, rfl, by simp, by simpa using updateProperty_cons_pos hq⟩
    · have hq' : idMatches q id = false := by simpa using hq
      have hfind' : getPropertyById qs id = some p := by
        unfold getPropertyById at hfind ⊢
        rwa [List.find?_cons_of_neg (p := fun x : Obj => idMatches x id) _ (by simp [hq'])]
          at hfind
      obtain ⟨pre, post, heq, hpre, hupd⟩ := ih hfind'
      refine ⟨q :: pre, post, by rw [heq]; rfl, ?_, ?_⟩
      · intro x hx
        rcases List.mem_cons.mp hx with h | h
        · rw [h]; exact hq'
        · exact hpre x h
      · rw [updateProperty_cons_neg hq', hupd]
        rfl

theorem mergedRecord_updatedAt (p u : Obj) (now : String) :
    objGet (mergedRecord p u now) "updatedAt" = some (JVal.str now) := by
  unfold mergedRecord
  exact objGet_spread_of_mem_nodup _ _ _ _ (by simp [objKeys]) (by simp)

theorem mergedRecord_supplied (p u : Obj) (now : String) (k : String) (v : JVal)
    (hk : k ≠ "updatedAt") (hnd : (objKeys u).Nodup) (hv : (k, v) ∈ u) :
    objGet (mergedRecord p u now) k = some v := by
  unfold mergedRecord
  rw [objGet_spread_of_not_mem _ _ _ (by simp [objKeys, hk])]
  exact objGet_spread_of_mem_nodup _ _ _ _ hnd hv

theorem mergedRecord_unsupplied (p u : Obj) (now : String) (k : String)
    (hk : k ≠ "updatedAt") (hku : k ∉ objKeys u) :
    objGet (mergedRecord p u now) k = objGet p k := by
  unfold mergedRecord
  rw [objGet_spread_of_not_mem _ _ _ (by simp [objKeys, hk]),
      objGet_spread_of_not_mem _ _ _ hku]

/- ===================== C3 : update semantics ============================ -/

/-- C3 (amended): `updateProperty` returns not-found exactly when no record
carries the id; otherwise it replaces the (first) matching record in place by
the shallow merge, persists that collection and returns the merged record,
in which every supplied key other than `updatedAt` overwrites, every
unsupplied key is retained, and `updatedAt` is set to the call-time stamp —
strictly greater than the prior `updatedAt` whenever the call-time stamp is
strictly greater (the code offers no guarantee when the clock has not
advanced, and a supplied `updatedAt` key is overridden by the refresh). -/
theorem claim_C3_update_merge (props : List Obj) (id : String) (u : Obj)
    (now : String) (hnd : (objKeys u).Nodup) :
    (updateProperty props id u now = none ↔ getPropertyById props id = none)
    ∧ (∀ p, getPropertyById props id = some p →
        ∃ pre post,
          props = pre ++ p :: post
          ∧ updateProperty props id u now
              = some (pre ++ mergedRecord p u now :: post, mergedRecord p u now)
          ∧ objGet (mergedRecord p u now) "updatedAt" = some (JVal.str now)
          ∧ (∀ k v, k ≠ "updatedAt" → (k, v) ∈ u →
                objGet (mergedRecord p u now) k = some v)
          ∧ (∀ k, k ≠ "updatedAt" → k ∉ objKeys u →
                objGet (mergedRecord p u now) k = objGet p k)
          ∧ (∀ prev, objGet p "updatedAt" = some (JVal.str prev) →
                strLt prev now = true →
                ∃ newUA, objGet (mergedRecord p u now) "updatedAt" = some (JVal.str newUA)
                  ∧ strLt prev newUA = true)) := by
  refine ⟨updateProperty_none_iff props id u now, ?_⟩
  intro p hp
  obtain ⟨pre, post, heq, hpre, hupd⟩ := updateProperty_found props id u now p hp
  refine ⟨pre, post, heq, hupd, mergedRecord_updatedAt p u now, ?_, ?_, ?_⟩
  · intro k v hk hv
    exact mergedRecord_supplied p u now k v hk hnd hv
  · intro k hk hku
    exact mergedRecord_unsupplied p u now k hk hku
  · intro prev _ hlt
    exact ⟨now, mergedRecord_updatedAt p u now, hlt⟩

def w3p : Obj :=
  [("id", JVal.str "A"), ("price", JVal.num 100),
   ("location", JVal.str "Hyd"), ("updatedAt", JVal.str "2024-01-01")]

def w3u : Obj := [("price", JVal.num 500)]

theorem claim_C3_update_merge_witness :
    objGet (mergedRecord w3p w3u "2024-01-02") "price" = some (JVal.num 500)
    ∧ objGet (mergedRecord w3p w3u "2024-01-02") "location" = objGet w3p "location"
    ∧ objGet (mergedRecord w3p w3u "2024-01-02") "updatedAt"
        = some (JVal.str "2024-01-02") := by
  obtain ⟨-, h2⟩ := claim_C3_update_merge [w3p] "A" w3u "2024-01-02"
    (by simp [objKeys, w3u])
  obtain ⟨pre, post, -, -, hua, hsup, huns, -⟩ := h2 w3p (by rfl)
  exact ⟨hsup "price" (JVal.num 500) (by decide) (by simp [w3u]),
         huns "location" (by decide) (by simp [objKeys, w3u]),
         hua⟩

def ce3u : Obj := [("updatedAt", JVal.str "Z")]

/-- C3 as stated is false at this input: updating at a call whose clock
stamp equals the record's prior `updatedAt` ("T1"), with the update payload
itself supplying `updatedAt := "Z"`, produces a record whose `updatedAt` is
still "T1" — the supplied key did not overwrite, and the new `updatedAt` is
not strictly greater than the prior one. -/
theorem claim_C3_counterexample :
    updateProperty [w3p] "A" ce3u "2024-01-01"
      = some ([mergedRecord w3p ce3u "2024-01-01"], mergedRecord w3p ce3u "2024-01-01")
    ∧ objGet (mergedRecord w3p ce3u "2024-01-01") "updatedAt"
        = some (JVal.str "2024-01-01")
    ∧ JVal.str "2024-01-01" ≠ JVal.str "Z"
    ∧ strLt "2024-01-01" "2024-01-01" = false := by
  refine ⟨rfl, rfl, ?_, ?_⟩
  · intro h
    injection h with h'
    exact absurd h' (by decide)
  · rfl

/- ===================== C6 : identity stability ========================== -/

/-- C6 (amended): `id` is assigned by `saveProperty` at creation and
`createdAt` is stamped there; an update whose payload does not itself supply
an `id`/`createdAt` key leaves both unchanged on the updated record, and
every record an update or delete leaves in the collection is either the
updated record or a record of the previous collection, unmodified.  (The
store reserves no keys — a payload that does supply `id` overwrites it, see
the counterexample — and id uniqueness/non-reuse is only probabilistic,
coming from the timestamp+randomness of the generated id, which enters the
model as the parameter `pid`.) -/
theorem claim_C6_id_stability (props : List Obj) (pd : Obj) (pid now : String)
    (id : String) (u : Obj) (now' : String) (props' : List Obj) (r : Obj)
    (hid : "id" ∉ objKeys pd)
    (hupd : updateProperty props id u now' = some (props', r))
    (hidu : "id" ∉ objKeys u) (hcau : "createdAt" ∉ objKeys u) :
    objGet (saveProperty props pd pid now).2 "id" = some (JVal.str pid)
    ∧ objGet (saveProperty props pd pid now).2 "createdAt" = some (JVal.str now)
    ∧ (∃ p, getPropertyById props id = some p
        ∧ objGet r "id" = objGet p "id"
        ∧ objGet r "createdAt" = objGet p "createdAt"
        ∧ ∀ q ∈ props', q = r ∨ q ∈ props)
    ∧ (∀ d q, q ∈ (deleteProperty props d).2 → q ∈ props) := by
  refine ⟨?_, ?_, ?_, ?_⟩
  · show objGet (spread (spread [("id", JVal.str pid)] pd)
      [("createdAt", JVal.str now), ("updatedAt", JVal.str now)]) "id" = some (JVal.str pid)
    rw [objGet_spread_of_not_mem _ _ _ (by simp [objKeys]),
        objGet_spread_of_not_mem _ _ _ hid]
    rfl
  · show objGet (spread (spread [("id", JVal.str pid)] pd)
      [("createdAt", JVal.str now), ("updatedAt", JVal.str now)]) "createdAt"
        = some (JVal.str now)
    exact objGet_spread_of_mem_nodup _ _ _ _ (by simp [objKeys]) (by simp)
  · have hne : getPropertyById props id ≠ none := fun hn => by
      rw [(updateProperty_none_iff props id u now').mpr hn] at hupd
      cases hupd
    obtain ⟨p, hp⟩ := Option.ne_none_iff_exists'.mp hne
    obtain ⟨pre, post, heq, -, hupd'⟩ := updateProperty_found props id u now' p hp
    rw [hupd'] at hupd
    have hr : r = mergedRecord p u now' := by
      have := (Option.some_inj.mp hupd)
      exact (congrArg Prod.snd this).symm
    have hprops' : props' = pre ++ mergedRecord p u now' :: post := by
      have := (Option.some_inj.mp hupd)
      exact (congrArg Prod.fst this).symm
    refine ⟨p, hp, ?_, ?_, ?_⟩
    · rw [hr]
      exact mergedRecord_unsupplied p u now' "id" (by decide) hidu
    · rw [hr]
      exact mergedRecord_unsupplied p u now' "createdAt" (by decide) hcau
    · intro q hq
      rw [hprops'] at hq
      rcases List.mem_append.mp hq with h | h
      · right
        rw [heq]
        exact List.mem_append.mpr (Or.inl h)
      · rcases List.mem_cons.mp h with h | h
        · left
          rw [h, hr]
        · right
          rw [heq]
          exact List.mem_append.mpr (Or.inr (List.mem_cons_of_mem _ h))
  · intro d q hq
    unfold deleteProperty at hq
    by_cases hc : ((props.filter (fun p => !(idMatches p d))).length == props.length) = true
    · rw [if_pos hc] at hq
      exact hq
    · rw [if_neg hc] at hq
      exact List.mem_of_mem_filter hq

def w6p : Obj :=
  [("id", JVal.str "A"), ("createdAt", JVal.str "C1"), ("updatedAt", JVal.str "T1")]

def w6u : Obj := [("price", JVal.num 5)]

theorem claim_C6_id_stability_witness :
    objGet (saveProperty [w6p] [("title", JVal.str "x")] "PROP_9" "T9").2 "id"
      = some (JVal.str "PROP_9")
    ∧ objGet (saveProperty [w6p] [("title", JVal.str "x")] "PROP_9" "T9").2 "createdAt"
      = some (JVal.str "T9") := by
  have h := claim_C6_id_stability [w6p] [("title", JVal.str "x")] "PROP_9" "T9"
    "A" w6u "T2" [mergedRecord w6p w6u "T2"] (mergedRecord w6p w6u "T2")
    (by decide) (by rfl) (by decide) (by decide)
  exact ⟨h.1, h.2.1⟩

def ce6u : Obj := [("id", JVal.str "B")]

/-- C6 as stated is false at this input: an update whose payload supplies an
`id` key rewrites the record's id — the id is not immutable after
assignment (likewise `createdAt` could be overwritten the same way). -/
theorem claim_C6_counterexample :
    updateProperty [w6p] "A" ce6u "T2"
      = some ([mergedRecord w6p ce6u "T2"], mergedRecord w6p ce6u "T2")
    ∧ objGet (mergedRecord w6p ce6u "T2") "id" = some (JVal.str "B")
    ∧ JVal.str "B" ≠ JVal.str "A" := by
  refine ⟨rfl, rfl, ?_⟩
  intro h
  injection h with h'
  exact absurd h' (by decide)

/- ===================== C7 : delete semantics ============================ -/

/-- C7: `deleteProperty` returns whether a removal occurred; after a delete
the deleted id reads as not-found; deleting an id that is not present
(including an already-deleted id) returns `false` — an ordinary value, not a
fault — and leaves the collection unchanged. -/
theorem claim_C7_delete_semantics (props : List Obj) (id : String) :
    ((deleteProperty props id).1 = true ↔ ∃ p, p ∈ props ∧ idMatches p id = true)
    ∧ getPropertyById (deleteProperty props id).2 id = none
    ∧ ((deleteProperty props id).1 = false → (deleteProperty props id).2 = props)
    ∧ (deleteProperty (deleteProperty props id).2 id).1 = false := by
  by_cases hc : (props.filter (fun p => !(idMatches p id))).length = props.length
  · have hall : ∀ p ∈ props, idMatches p id = false := by
      intro p hp
      have := List.filter_length_eq_length.mp hc p hp
      simpa using this
    have hdel : deleteProperty props id = (false, props) := by
      unfold deleteProperty
      rw [if_pos (by simpa using hc)]
    rw [hdel]
    refine ⟨?_, ?_, fun _ => rfl, ?_⟩
    · constructor
      · intro h
        cases h
      · rintro ⟨p, hp, hm⟩
        rw [hall p hp] at hm
        cases hm
    · unfold getPropertyById
      rw [List.find?_eq_none]
      intro p hp
      simp [hall p hp]
    · rw [hdel]
  · have hdel : deleteProperty props id
        = (true, props.filter (fun p => !(idMatches p id))) := by
      unfold deleteProperty
      rw [if_neg (by simpa using hc)]
    rw [hdel]
    have hres : ∀ p ∈ props.filter (fun p => !(idMatches p id)), idMatches p id = false := by
      intro p hp
      have := List.of_mem_filter hp
      simpa using this
    refine ⟨?_, ?_, ?_, ?_⟩
    · constructor
      · intro _
        by_contra hno
        push_neg at hno
        apply hc
        rw [List.filter_length_eq_length]
        intro a ha
        have := hno a ha
        simp only [Bool.not_eq_true] at this
        simp [this]
      · intro _
        rfl
    · unfold getPropertyById
      rw [List.find?_eq_none]
      intro p hp
      simp [hres p hp]
    · intro h
      cases h
    · unfold deleteProperty
      rw [if_pos]
      rw [beq_iff_eq, List.filter_length_eq_length]
      intro a ha
      simp [hres a ha]

theorem claim_C7_delete_semantics_witness :
    (deleteProperty [w6p] "A").1 = true
    ∧ getPropertyById (deleteProperty [w6p] "A").2 "A" = none
    ∧ (deleteProperty (deleteProperty [w6p] "A").2 "A").1 = false := by
  have h := claim_C7_delete_semantics [w6p] "A"
  exact ⟨h.1.mpr ⟨w6p, by simp, by decide⟩, h.2.1, h.2.2.2⟩

/- ===================== C8 : load robustness ============================= -/

/-- C8: the loader is a total function of the durable file's state — no
fault escapes it.  An absent file loads as the empty collection with no
error; a file that parses loads as its parsed collection; a file that exists
but cannot be parsed is not treated as valid data: the catch branch reports
the error (flag `true`) and hands back the empty collection. -/
theorem claim_C8_load_never_faults :
    readProperties FileState.absent = ([], false)
    ∧ (∀ l, readProperties (FileState.present (some l)) = (l, false))
    ∧ readProperties (FileState.present none) = ([], true) :=
  ⟨rfl, fun _ => rfl, rfl⟩
